import Mathlib

/-
Verification of the no-floating-error lint rule (src/rules/no-floating-error.mjs).

The rule walks expression statements, extracts a standalone (possibly awaited)
call, resolves the call's static result type through the TypeScript checker,
and reports a diagnostic when that type may be (or contain) the built-in Error
type or a subclass of it.

The TypeScript type graph is embedded as an opaque-handle graph: type handles
are natural numbers, and a Checker bundles the checker queries the rule uses
(node data, getApparentType, getBaseConstraintOfType, getBaseTypes, and the
optional getAwaitedType / getPromisedTypeOfPromise operations).  Recursive
walks over the graph are fueled, returning none on fuel exhaustion; the source
relies on the real checker's graphs being finite, and the termination theorem
below shows bounded fuel always suffices on a finite closed graph.
-/

namespace CheckedError

/-- Discriminator for a type handle, mirroring the flag tests the rule makes:
ts.TypeFlags.Union / Intersection / TypeParameter / Any / Unknown / Never /
Object (with objectFlags ClassOrInterface as a Boolean), and a catch-all for
every other kind of type. -/
inductive TyKind where
  | union (members : List Nat)
  | inter (members : List Nat)
  | typeParam
  | anyT
  | unknownT
  | neverT
  | obj (classOrInterface : Bool)
  | prim
deriving DecidableEq, Repr

/-- Data of one node of the borrowed type graph: its kind (flags view) and the
name of its symbol when it has one (type.getSymbol()?.getName()). -/
structure TypeNode where
  kind : TyKind
  symbolName : Option String
deriving DecidableEq, Repr

/-- The narrow view of ts.TypeChecker used by the rule.  Handles are Nats;
size bounds the handles of the graph under consideration.  The two optional
awaited-type operations model the version-dependent checker API: a has-flag
for availability (typeof checker.op === 'function') and the operation itself,
which may yield no result (undefined). -/
structure Checker where
  size : Nat
  node : Nat → TypeNode
  apparent : Nat → Nat
  baseConstraint : Nat → Option Nat
  baseTypes : Nat → List Nat
  hasGetAwaitedType : Bool
  getAwaitedTypeOp : Nat → Option Nat
  hasGetPromisedTypeOfPromise : Bool
  getPromisedTypeOfPromiseOp : Nat → Option Nat

/-- Well-formedness of the borrowed graph: base-type edges stay inside the
graph.  Used only by the termination theorem. -/
abbrev BasesClosed (checker : Checker) : Prop :=
  ∀ t, t < checker.size → ∀ b ∈ checker.baseTypes t, b < checker.size

/-- Translation of getAwaitedType (lines 25-41): prefer the direct
getAwaitedType checker operation when available, else the
getPromisedTypeOfPromise fallback, else the type unchanged; a present
operation yielding no result also falls back to the type unchanged. -/
def getAwaitedType (checker : Checker) (type : Nat) : Nat :=
  if checker.hasGetAwaitedType then
    match checker.getAwaitedTypeOp type with
    | some awaited => awaited
    | none => type
  else if checker.hasGetPromisedTypeOfPromise then
    match checker.getPromisedTypeOfPromiseOp type with
    | some promised => promised
    | none => type
  else type

/-- Concatenating flatMap step of flattenTypes over a member list, with the
recursion over members passed as a function (the flatMap callback). -/
def flattenList (visit : Nat → Option (List Nat)) : List Nat → Option (List Nat)
  | [] => some []
  | t :: ts =>
    match visit t with
    | none => none
    | some l =>
      match flattenList visit ts with
      | none => none
      | some r => some (l ++ r)

/-- Translation of flattenTypes (lines 50-61): expand unions and intersections
into members, replace a type parameter by its base constraint when present,
and return every other type (including an unconstrained type parameter) as a
single leaf. -/
def flattenTypes (checker : Checker) : Nat → Nat → Option (List Nat)
  | 0, _ => none
  | fuel + 1, type =>
    match (checker.node type).kind with
    | TyKind.union members => flattenList (fun t => flattenTypes checker fuel t) members
    | TyKind.inter members => flattenList (fun t => flattenTypes checker fuel t) members
    | TyKind.typeParam =>
      match checker.baseConstraint type with
      | some constraint => flattenTypes checker fuel constraint
      | none => some [type]
    | _ => some [type]

/-- Loop of isErrorInterfaceOrBase over the declared base types (lines
110-112), threading the shared seen set and short-circuiting on a match; the
recursive descent is passed as a function. -/
def visitList (visit : Nat → List Nat → Option (Bool × List Nat)) :
    List Nat → List Nat → Option (Bool × List Nat)
  | [], seen => some (false, seen)
  | b :: bs, seen =>
    match visit b seen with
    | none => none
    | some (true, seen') => some (true, seen')
    | some (false, seen') => visitList visit bs seen'

/-- Combined flag test of lines 102-106: the type has the Object type flag and
its object flags contain ClassOrInterface, the only case in which the walk
descends into declared base types. -/
def isClassOrInterface : TyKind → Bool
  | TyKind.obj true => true
  | _ => false

/-- Translation of isErrorInterfaceOrBase (lines 94-117): depth-first walk of
the declared base types guarded by the seen set, matching on a symbol named
Error, descending only from object types flagged ClassOrInterface.  The result
carries the final seen set so that the threading of the shared mutable set is
explicit. -/
def isErrorInterfaceOrBase (checker : Checker) : Nat → Nat → List Nat → Option (Bool × List Nat)
  | 0, _, _ => none
  | fuel + 1, type, seen =>
    if type ∈ seen then some (false, seen)
    else
      let seen1 := type :: seen
      if (checker.node type).symbolName = some "Error" then some (true, seen1)
      else if isClassOrInterface (checker.node type).kind then
        visitList (fun t s => isErrorInterfaceOrBase checker fuel t s)
          (checker.baseTypes type) seen1
      else some (false, seen1)

/-- Test for the three flag checks that skip a flattened leaf (lines 75-77):
any, unknown, never. -/
def isTopBottom (k : TyKind) : Bool :=
  match k with
  | TyKind.anyT => true
  | TyKind.unknownT => true
  | TyKind.neverT => true
  | _ => false

/-- Loop of isErrorOrSubclass over the flattened parts (lines 73-81): skip
any/unknown/never leaves, otherwise take the apparent type and walk its base
chain with a fresh seen set, short-circuiting on the first match. -/
def matchParts (checker : Checker) (fuel : Nat) : List Nat → Option Bool
  | [] => some false
  | t :: rest =>
    if isTopBottom (checker.node t).kind then matchParts checker fuel rest
    else
      match isErrorInterfaceOrBase checker fuel (checker.apparent t) [] with
      | none => none
      | some (true, _) => some true
      | some (false, _) => matchParts checker fuel rest

/-- Translation of isErrorOrSubclass (lines 70-84): flatten the type and test
the parts. -/
def isErrorOrSubclass (checker : Checker) (fuel : Nat) (type : Nat) : Option Bool :=
  match flattenTypes checker fuel type with
  | none => none
  | some parts => matchParts checker fuel parts

/-- ESTree expression shapes relevant to the classifier.  A call expression
carries the type handle the checker assigns to it (the composition of
esTreeNodeToTSNodeMap.get with checker.getTypeAtLocation). -/
inductive Expr where
  | callExpression (typeAtLocation : Nat)
  | awaitExpression (argument : Expr)
  | memberExpression (object : Expr) (property : String)
  | assignmentExpression (left : String) (right : Expr)
  | conditionalExpression (test consequent alternate : Expr)
  | sequenceExpression (first second : Expr)
  | identifier (name : String)
  | literal
deriving DecidableEq, Repr

/-- Result shape of getStandaloneCall (line 125). -/
structure StandaloneCall where
  call : Expr
  isAwait : Bool
deriving DecidableEq, Repr

/-- Translation of getStandaloneCall (lines 127-138): a direct call
expression, or an await expression whose argument is directly a call
expression; anything else yields none. -/
def getStandaloneCall (expr : Expr) : Option StandaloneCall :=
  match expr with
  | Expr.callExpression _ => some ⟨expr, false⟩
  | Expr.awaitExpression argument =>
    match argument with
    | Expr.callExpression _ => some ⟨argument, true⟩
    | _ => none
  | _ => none

/-- The checker's type-of-node query (line 173) as used by the rule: it is
queried only at the call expressions extracted by getStandaloneCall, which
carry their checker-assigned type handle. -/
def getTypeAtLocation : Expr → Nat
  | Expr.callExpression typeAtLocation => typeAtLocation
  | _ => 0

/-- Resolution of the call's result type (lines 173-176): the type at the call
node, unwrapped once through getAwaitedType when the call was awaited. -/
def resolveResultType (checker : Checker) (call : Expr) (isAwait : Bool) : Nat :=
  let returnType := getTypeAtLocation call
  if isAwait then getAwaitedType checker returnType else returnType

/-- The ExpressionStatement handler (lines 164-184), reduced to its report
decision: some true means one diagnostic is reported at the statement, some
false means the statement is silently allowed, none is fuel exhaustion of the
embedded graph walks. -/
def checkExpressionStatement (checker : Checker) (fuel : Nat) (expression : Expr) : Option Bool :=
  match getStandaloneCall expression with
  | none => some false
  | some extracted =>
    isErrorOrSubclass checker fuel (resolveResultType checker extracted.call extracted.isAwait)

/-- ESTree statement shapes: the rule registers a handler only for expression
statements, so these model the assigned / returned / thrown placements the
specification contrasts with bare statements. -/
inductive Stmt where
  | expressionStatement (expression : Expr)
  | variableDeclaration (name : String) (init : Expr)
  | returnStatement (argument : Expr)
  | throwStatement (argument : Expr)
  | emptyStatement
deriving DecidableEq, Repr

/-- Per-statement report decision of the rule: only expression statements are
inspected, every other statement kind is never reported. -/
def lintStmt (checker : Checker) (fuel : Nat) (s : Stmt) : Option Bool :=
  match s with
  | Stmt.expressionStatement expression => checkExpressionStatement checker fuel expression
  | _ => some false

/-- One traversal of a file: statements tagged with node identifiers, visited
in order, accumulating the identifiers of reported statements. -/
def lintFile (checker : Checker) (fuel : Nat) : List (Nat × Stmt) → List Nat
  | [] => []
  | (id, s) :: rest =>
    (if lintStmt checker fuel s = some true then [id] else []) ++ lintFile checker fuel rest

/-- A declared-base-type chain from a type to a type whose symbol is named
Error: the empty chain means the type itself is named Error, a step requires
the ClassOrInterface object flags (the only case the walk descends) and
membership in the declared base types. -/
def IsBaseChain (checker : Checker) : Nat → List Nat → Prop
  | t, [] => (checker.node t).symbolName = some "Error"
  | t, b :: bs =>
    isClassOrInterface (checker.node t).kind = true ∧ b ∈ checker.baseTypes t ∧
      IsBaseChain checker b bs

instance IsBaseChain.dec (checker : Checker) :
    (t : Nat) → (path : List Nat) → Decidable (IsBaseChain checker t path)
  | t, [] => inferInstanceAs (Decidable ((checker.node t).symbolName = some "Error"))
  | _t, b :: bs =>
    haveI := IsBaseChain.dec checker b bs
    inferInstanceAs (Decidable (_ ∧ _ ∧ _))

/-- Leaf test: kinds that flattenTypes returns unexpanded as a singleton
without consulting anything else (neither union nor intersection nor type
parameter). -/
def isLeafKind (k : TyKind) : Bool :=
  match k with
  | TyKind.union _ => false
  | TyKind.inter _ => false
  | TyKind.typeParam => false
  | _ => true

/-
Helper lemmas about the base-type walk.  The shared seen set only ever grows
by consing, so every successful result's final seen set extends the initial
one as a suffix; this drives monotonicity, the cycle-guard bookkeeping and the
termination bound.
-/

theorem visitList_suffix (visit : Nat → List Nat → Option (Bool × List Nat))
    (hvisit : ∀ b s r, visit b s = some r → ∃ ext, r.2 = ext ++ s) :
    ∀ bs seen r, visitList visit bs seen = some r → ∃ ext, r.2 = ext ++ seen := by
  intro bs
  induction bs with
  | nil =>
    intro seen r h
    simp only [visitList] at h
    cases h
    exact ⟨[], rfl⟩
  | cons b bs ih =>
    intro seen r h
    simp only [visitList] at h
    cases hv : visit b seen with
    | none => rw [hv] at h; cases h
    | some r1 =>
      rw [hv] at h
      obtain ⟨b1, s1⟩ := r1
      cases b1 with
      | true =>
        simp only at h
        cases h
        exact hvisit b seen _ hv
      | false =>
        simp only at h
        obtain ⟨e1, he1⟩ := ih s1 r h
        obtain ⟨e2, he2⟩ := hvisit b seen _ hv
        simp only at he2
        exact ⟨e1 ++ e2, by rw [he1, he2, List.append_assoc]⟩

theorem isErrorInterfaceOrBase_suffix (checker : Checker) :
    ∀ fuel type seen r, isErrorInterfaceOrBase checker fuel type seen = some r →
      ∃ ext, r.2 = ext ++ seen := by
  intro fuel
  induction fuel with
  | zero => intro t s r h; simp [isErrorInterfaceOrBase] at h
  | succ f ih =>
    intro t s r h
    simp only [isErrorInterfaceOrBase] at h
    by_cases hmem : t ∈ s
    · simp only [if_pos hmem] at h
      cases h
      exact ⟨[], rfl⟩
    · simp only [if_neg hmem] at h
      by_cases hname : (checker.node t).symbolName = some "Error"
      · simp only [if_pos hname] at h
        cases h
        exact ⟨[t], rfl⟩
      · simp only [if_neg hname] at h
        by_cases hcls : isClassOrInterface (checker.node t).kind = true
        · simp only [if_pos hcls] at h
          obtain ⟨ext, hext⟩ := visitList_suffix _ (fun b s r hh => ih b s r hh) _ _ _ h
          exact ⟨ext ++ [t], by simp [hext]⟩
        · simp only [if_neg hcls] at h
          cases h
          exact ⟨[t], rfl⟩

theorem isErrorInterfaceOrBase_self_mem (checker : Checker) :
    ∀ fuel type seen r, isErrorInterfaceOrBase checker fuel type seen = some r →
      type ∈ r.2 := by
  intro fuel type seen r h
  cases fuel with
  | zero => simp [isErrorInterfaceOrBase] at h
  | succ f =>
    simp only [isErrorInterfaceOrBase] at h
    by_cases hmem : type ∈ seen
    · simp only [if_pos hmem] at h; cases h; exact hmem
    · simp only [if_neg hmem] at h
      by_cases hname : (checker.node type).symbolName = some "Error"
      · simp only [if_pos hname] at h; cases h; exact List.mem_cons_self _ _
      · simp only [if_neg hname] at h
        by_cases hcls : isClassOrInterface (checker.node type).kind = true
        · simp only [if_pos hcls] at h
          obtain ⟨ext, hext⟩ :=
            visitList_suffix _
              (fun b s r hh => isErrorInterfaceOrBase_suffix checker f b s r hh) _ _ _ h
          rw [hext]
          simp
        · simp only [if_neg hcls] at h
          cases h
          exact List.mem_cons_self _ _

theorem visitList_mem_false (visit : Nat → List Nat → Option (Bool × List Nat))
    (hsuf : ∀ b s r, visit b s = some r → ∃ ext, r.2 = ext ++ s)
    (hself : ∀ b s r, visit b s = some r → b ∈ r.2) :
    ∀ bs seen s', visitList visit bs seen = some (false, s') → ∀ b ∈ bs, b ∈ s' := by
  intro bs
  induction bs with
  | nil => intro seen s' h b hb; cases hb
  | cons b0 bs ih =>
    intro seen s' h b hb
    simp only [visitList] at h
    cases hv : visit b0 seen with
    | none => rw [hv] at h; cases h
    | some r1 =>
      rw [hv] at h
      obtain ⟨b1, s1⟩ := r1
      cases b1 with
      | true => simp only at h; cases h
      | false =>
        simp only at h
        rcases List.mem_cons.mp hb with hb0 | hbs
        · subst hb0
          have hmem : b ∈ s1 := hself b seen _ hv
          obtain ⟨ext, hext⟩ := visitList_suffix visit hsuf bs s1 _ h
          simp only at hext
          rw [hext]
          exact List.mem_append_right _ hmem
        · exact ih s1 s' h b hbs

/-- Invariant delivered by a failed walk: every node the walk added to the
seen set is not named Error, and when it is a class or interface all its
declared base types ended up in the final seen set as well. -/
def FalseInv (checker : Checker) (seen s' : List Nat) : Prop :=
  ∀ u ∈ s', u ∉ seen →
    (checker.node u).symbolName ≠ some "Error" ∧
      (isClassOrInterface (checker.node u).kind = true → ∀ b ∈ checker.baseTypes u, b ∈ s')

theorem visitList_false_inv (checker : Checker)
    (visit : Nat → List Nat → Option (Bool × List Nat))
    (hsuf : ∀ b s r, visit b s = some r → ∃ ext, r.2 = ext ++ s)
    (hinv : ∀ b s s', visit b s = some (false, s') → FalseInv checker s s') :
    ∀ bs seen s', visitList visit bs seen = some (false, s') → FalseInv checker seen s' := by
  intro bs
  induction bs with
  | nil =>
    intro seen s' h
    simp only [visitList] at h
    cases h
    intro u hu hnu
    exact absurd hu hnu
  | cons b0 bs ih =>
    intro seen s' h
    simp only [visitList] at h
    cases hv : visit b0 seen with
    | none => rw [hv] at h; cases h
    | some r1 =>
      rw [hv] at h
      obtain ⟨b1, s1⟩ := r1
      cases b1 with
      | true => simp only at h; cases h
      | false =>
        simp only at h
        have hrest : FalseInv checker s1 s' := ih s1 s' h
        have hfirst : FalseInv checker seen s1 := hinv b0 seen s1 hv
        obtain ⟨ext, hext⟩ := visitList_suffix visit hsuf bs s1 _ h
        simp only at hext
        intro u hu hnu
        by_cases hu1 : u ∈ s1
        · obtain ⟨hname, hbases⟩ := hfirst u hu1 hnu
          refine ⟨hname, fun hcls b hb => ?_⟩
          rw [hext]
          exact List.mem_append_right _ (hbases hcls b hb)
        · exact hrest u hu hu1

theorem isErrorInterfaceOrBase_false_inv (checker : Checker) :
    ∀ fuel type seen s', isErrorInterfaceOrBase checker fuel type seen = some (false, s') →
      FalseInv checker seen s' := by
  intro fuel
  induction fuel with
  | zero => intro t s s' h; simp [isErrorInterfaceOrBase] at h
  | succ f ih =>
    intro t s s' h
    simp only [isErrorInterfaceOrBase] at h
    by_cases hmem : t ∈ s
    · simp only [if_pos hmem] at h
      cases h
      intro u hu hnu
      exact absurd hu hnu
    · simp only [if_neg hmem] at h
      by_cases hname : (checker.node t).symbolName = some "Error"
      · simp only [if_pos hname] at h; cases h
      · simp only [if_neg hname] at h
        by_cases hcls : isClassOrInterface (checker.node t).kind = true
        · simp only [if_pos hcls] at h
          have hvinv :=
            visitList_false_inv checker _
              (fun b s r hh => isErrorInterfaceOrBase_suffix checker f b s r hh)
              (fun b s s' hh => ih b s s' hh) _ _ _ h
          have hbases : ∀ b ∈ checker.baseTypes t, b ∈ s' :=
            visitList_mem_false _
              (fun b s r hh => isErrorInterfaceOrBase_suffix checker f b s r hh)
              (fun b s r hh => isErrorInterfaceOrBase_self_mem checker f b s r hh) _ _ _ h
          intro u hu hnu
          by_cases hut : u = t
          · subst hut
            exact ⟨hname, fun _ => hbases⟩
          · have : u ∉ t :: s := by
              intro hc
              rcases List.mem_cons.mp hc with hc | hc
              · exact hut hc
              · exact hnu hc
            exact hvinv u hu this
        · simp only [if_neg hcls] at h
          cases h
          intro u hu hnu
          rcases List.mem_cons.mp hu with hc | hc
          · subst hc
            exact ⟨hname, fun hc2 => absurd hc2 hcls⟩
          · exact absurd hc hnu

/-- In a set satisfying the failed-walk closure with no Error name, no member
can start a declared-base chain reaching an Error-named type. -/
theorem no_chain_in_closed_set (checker : Checker) (s' : List Nat)
    (hinv : ∀ u ∈ s',
      (checker.node u).symbolName ≠ some "Error" ∧
        (isClassOrInterface (checker.node u).kind = true →
          ∀ b ∈ checker.baseTypes u, b ∈ s')) :
    ∀ path t, t ∈ s' → IsBaseChain checker t path → False := by
  intro path
  induction path with
  | nil =>
    intro t ht hc
    exact (hinv t ht).1 hc
  | cons b bs ih =>
    intro t ht hc
    obtain ⟨hcls, hb, hrest⟩ := hc
    exact ih b ((hinv t ht).2 hcls b hb) hrest

/-- A base chain witnessing reachability of an Error-named type forces the
walk, when it completes, to answer true. -/
theorem isErrorInterfaceOrBase_chain_true (checker : Checker) (fuel type : Nat)
    (path : List Nat) (r : Bool × List Nat)
    (hchain : IsBaseChain checker type path)
    (h : isErrorInterfaceOrBase checker fuel type [] = some r) : r.1 = true := by
  obtain ⟨b, s'⟩ := r
  cases b with
  | true => rfl
  | false =>
    exfalso
    have hinv := isErrorInterfaceOrBase_false_inv checker fuel type [] s' h
    have hself := isErrorInterfaceOrBase_self_mem checker fuel type [] _ h
    simp only at hself
    have hinv' : ∀ u ∈ s',
        (checker.node u).symbolName ≠ some "Error" ∧
          (isClassOrInterface (checker.node u).kind = true →
            ∀ b ∈ checker.baseTypes u, b ∈ s') :=
      fun u hu => hinv u hu (List.not_mem_nil u)
    exact no_chain_in_closed_set checker s' hinv' path type hself hchain

theorem flattenTypes_leafKind (checker : Checker) (fuel ty : Nat)
    (hk : isLeafKind (checker.node ty).kind = true) :
    flattenTypes checker (fuel + 1) ty = some [ty] := by
  simp only [flattenTypes]
  cases hkind : (checker.node ty).kind <;> simp_all [isLeafKind]

theorem flattenList_mem_success (visit : Nat → Option (List Nat)) :
    ∀ ms parts, flattenList visit ms = some parts → ∀ q ∈ ms,
      ∃ lq, visit q = some lq ∧ ∀ x ∈ lq, x ∈ parts := by
  intro ms
  induction ms with
  | nil => intro parts h q hq; cases hq
  | cons m ms ih =>
    intro parts h q hq
    simp only [flattenList] at h
    cases hm : visit m with
    | none => rw [hm] at h; cases h
    | some l =>
      rw [hm] at h
      cases hrest : flattenList visit ms with
      | none => rw [hrest] at h; cases h
      | some rr =>
        rw [hrest] at h
        simp only at h
        cases h
        rcases List.mem_cons.mp hq with hq0 | hqs
        · subst hq0
          exact ⟨l, hm, fun x hx => List.mem_append_left _ hx⟩
        · obtain ⟨lq, hlq, hsub⟩ := ih rr hrest q hqs
          exact ⟨lq, hlq, fun x hx => List.mem_append_right _ (hsub x hx)⟩

theorem matchParts_mem_true (checker : Checker) (fuel : Nat) :
    ∀ parts r p, p ∈ parts → isTopBottom (checker.node p).kind = false →
      (∃ path, IsBaseChain checker (checker.apparent p) path) →
      matchParts checker fuel parts = some r → r = true := by
  intro parts
  induction parts with
  | nil => intro r p hp _ _ _; cases hp
  | cons q rest ih =>
    intro r p hp hfil hchain h
    simp only [matchParts] at h
    by_cases hq : isTopBottom (checker.node q).kind = true
    · simp only [if_pos hq] at h
      rcases List.mem_cons.mp hp with hp0 | hps
      · subst hp0; rw [hq] at hfil; cases hfil
      · exact ih r p hps hfil hchain h
    · simp only [if_neg hq] at h
      cases hw : isErrorInterfaceOrBase checker fuel (checker.apparent q) [] with
      | none => rw [hw] at h; cases h
      | some rw0 =>
        rw [hw] at h
        obtain ⟨b1, s1⟩ := rw0
        cases b1 with
        | true => simp only at h; cases h; rfl
        | false =>
          simp only at h
          rcases List.mem_cons.mp hp with hp0 | hps
          · subst hp0
            obtain ⟨path, hpath⟩ := hchain
            have := isErrorInterfaceOrBase_chain_true checker fuel
              (checker.apparent p) path _ hpath hw
            simp at this
          · exact ih r p hps hfil hchain h

theorem lintStmt_bare_call (checker : Checker) (fuel ty : Nat) :
    lintStmt checker fuel (Stmt.expressionStatement (Expr.callExpression ty)) =
      isErrorOrSubclass checker fuel ty := rfl

theorem lintStmt_await_call (checker : Checker) (fuel ty : Nat) :
    lintStmt checker fuel
        (Stmt.expressionStatement (Expr.awaitExpression (Expr.callExpression ty))) =
      isErrorOrSubclass checker fuel (getAwaitedType checker ty) := rfl

/-- Core positive-report lemma: if the flattened parts of the bare call's
result type contain a leaf that is not skipped as any/unknown/never and whose
apparent type starts a declared-base chain to an Error-named type, then a
completed check reports. -/
theorem lintStmt_leaf_chain_true (checker : Checker) (fuel ty : Nat)
    (parts : List Nat) (p : Nat) (path : List Nat) (r : Bool)
    (hflat : flattenTypes checker fuel ty = some parts)
    (hp : p ∈ parts)
    (hfil : isTopBottom (checker.node p).kind = false)
    (hchain : IsBaseChain checker (checker.apparent p) path)
    (h : lintStmt checker fuel (Stmt.expressionStatement (Expr.callExpression ty)) = some r) :
    r = true := by
  rw [lintStmt_bare_call] at h
  simp only [isErrorOrSubclass, hflat] at h
  exact matchParts_mem_true checker fuel parts r p hp hfil ⟨path, hchain⟩ h

theorem nodup_bounded_length (l : List Nat) (n : Nat) (hd : l.Nodup)
    (hb : ∀ x ∈ l, x < n) : l.length ≤ n := by
  have h1 : l.toFinset.card = l.length := List.toFinset_card_of_nodup hd
  have h2 : l.toFinset ⊆ Finset.range n := by
    intro x hx
    exact Finset.mem_range.mpr (hb x (List.mem_toFinset.mp hx))
  have h3 := Finset.card_le_card h2
  rw [h1, Finset.card_range] at h3
  exact h3

theorem visitList_pres (checker : Checker)
    (visit : Nat → List Nat → Option (Bool × List Nat))
    (hpres : ∀ b s r, b < checker.size → s.Nodup → (∀ x ∈ s, x < checker.size) →
      visit b s = some r → r.2.Nodup ∧ ∀ x ∈ r.2, x < checker.size) :
    ∀ bs seen r, (∀ b ∈ bs, b < checker.size) → seen.Nodup →
      (∀ x ∈ seen, x < checker.size) → visitList visit bs seen = some r →
      r.2.Nodup ∧ ∀ x ∈ r.2, x < checker.size := by
  intro bs
  induction bs with
  | nil =>
    intro seen r hbs hnd hbd h
    simp only [visitList] at h
    cases h
    exact ⟨hnd, hbd⟩
  | cons b0 bs ih =>
    intro seen r hbs hnd hbd h
    simp only [visitList] at h
    cases hv : visit b0 seen with
    | none => rw [hv] at h; cases h
    | some r1 =>
      rw [hv] at h
      obtain ⟨b1, s1⟩ := r1
      have hb0 : b0 < checker.size := hbs b0 (List.mem_cons_self _ _)
      have h1 := hpres b0 seen _ hb0 hnd hbd hv
      cases b1 with
      | true => simp only at h; cases h; exact h1
      | false =>
        simp only at h
        simp only at h1
        exact ih s1 r (fun b hb => hbs b (List.mem_cons_of_mem _ hb)) h1.1 h1.2 h

theorem isErrorInterfaceOrBase_pres (checker : Checker) (hclosed : BasesClosed checker) :
    ∀ fuel type seen r, type < checker.size → seen.Nodup →
      (∀ x ∈ seen, x < checker.size) →
      isErrorInterfaceOrBase checker fuel type seen = some r →
      r.2.Nodup ∧ ∀ x ∈ r.2, x < checker.size := by
  intro fuel
  induction fuel with
  | zero => intro t s r _ _ _ h; simp [isErrorInterfaceOrBase] at h
  | succ f ih =>
    intro t s r ht hnd hbd h
    simp only [isErrorInterfaceOrBase] at h
    by_cases hmem : t ∈ s
    · simp only [if_pos hmem] at h; cases h; exact ⟨hnd, hbd⟩
    · simp only [if_neg hmem] at h
      have hnd1 : (t :: s).Nodup := List.nodup_cons.mpr ⟨hmem, hnd⟩
      have hbd1 : ∀ x ∈ t :: s, x < checker.size := by
        intro x hx
        rcases List.mem_cons.mp hx with hx | hx
        · subst hx; exact ht
        · exact hbd x hx
      by_cases hname : (checker.node t).symbolName = some "Error"
      · simp only [if_pos hname] at h; cases h; exact ⟨hnd1, hbd1⟩
      · simp only [if_neg hname] at h
        by_cases hcls : isClassOrInterface (checker.node t).kind = true
        · simp only [if_pos hcls] at h
          exact visitList_pres checker _
            (fun b s r hb hn hbnd hh => ih b s r hb hn hbnd hh)
            _ _ _ (fun b hb => hclosed t ht b hb) hnd1 hbd1 h
        · simp only [if_neg hcls] at h; cases h; exact ⟨hnd1, hbd1⟩

theorem visitList_total (checker : Checker)
    (visit : Nat → List Nat → Option (Bool × List Nat)) (n : Nat)
    (htot : ∀ b s, b < checker.size → s.Nodup → (∀ x ∈ s, x < checker.size) →
      checker.size + 1 ≤ n + s.length → ∃ r, visit b s = some r)
    (hpres : ∀ b s r, b < checker.size → s.Nodup → (∀ x ∈ s, x < checker.size) →
      visit b s = some r → r.2.Nodup ∧ ∀ x ∈ r.2, x < checker.size)
    (hsuf : ∀ b s r, visit b s = some r → ∃ ext, r.2 = ext ++ s) :
    ∀ bs seen, (∀ b ∈ bs, b < checker.size) → seen.Nodup →
      (∀ x ∈ seen, x < checker.size) → checker.size + 1 ≤ n + seen.length →
      ∃ r, visitList visit bs seen = some r := by
  intro bs
  induction bs with
  | nil =>
    intro seen _ _ _ _
    exact ⟨(false, seen), rfl⟩
  | cons b0 bs ih =>
    intro seen hbs hnd hbd hlen
    have hb0 : b0 < checker.size := hbs b0 (List.mem_cons_self _ _)
    obtain ⟨r1, hv⟩ := htot b0 seen hb0 hnd hbd hlen
    obtain ⟨bb, s1⟩ := r1
    cases bb with
    | true => exact ⟨(true, s1), by simp only [visitList, hv]⟩
    | false =>
      have h1 := hpres b0 seen _ hb0 hnd hbd hv
      simp only at h1
      obtain ⟨ext, hext⟩ := hsuf b0 seen _ hv
      simp only at hext
      have hlen1 : checker.size + 1 ≤ n + s1.length := by
        have : seen.length ≤ s1.length := by
          rw [hext, List.length_append]
          omega
        omega
      obtain ⟨r, hrest⟩ := ih s1 (fun b hb => hbs b (List.mem_cons_of_mem _ hb)) h1.1 h1.2 hlen1
      exact ⟨r, by simp only [visitList, hv, hrest]⟩

theorem isErrorInterfaceOrBase_total (checker : Checker) (hclosed : BasesClosed checker) :
    ∀ fuel type seen, type < checker.size → seen.Nodup →
      (∀ x ∈ seen, x < checker.size) → checker.size + 1 ≤ fuel + seen.length →
      ∃ r, isErrorInterfaceOrBase checker fuel type seen = some r := by
  intro fuel
  induction fuel with
  | zero =>
    intro t s _ hnd hbd hlen
    exfalso
    have := nodup_bounded_length s checker.size hnd hbd
    omega
  | succ f ih =>
    intro t s ht hnd hbd hlen
    by_cases hmem : t ∈ s
    · exact ⟨(false, s), by simp [isErrorInterfaceOrBase, hmem]⟩
    · have hnd1 : (t :: s).Nodup := List.nodup_cons.mpr ⟨hmem, hnd⟩
      have hbd1 : ∀ x ∈ t :: s, x < checker.size := by
        intro x hx
        rcases List.mem_cons.mp hx with hx | hx
        · subst hx; exact ht
        · exact hbd x hx
      by_cases hname : (checker.node t).symbolName = some "Error"
      · exact ⟨(true, t :: s), by simp [isErrorInterfaceOrBase, hmem, hname]⟩
      · by_cases hcls : isClassOrInterface (checker.node t).kind = true
        · have hlen1 : checker.size + 1 ≤ f + (t :: s).length := by
            simp only [List.length_cons]
            omega
          obtain ⟨r, hr⟩ :=
            visitList_total checker _ f
              (fun b s2 hb hn hbnd hl => ih b s2 hb hn hbnd hl)
              (fun b s2 r2 hb hn hbnd hh =>
                isErrorInterfaceOrBase_pres checker hclosed f b s2 r2 hb hn hbnd hh)
              (fun b s2 r2 hh => isErrorInterfaceOrBase_suffix checker f b s2 r2 hh)
              (checker.baseTypes t) (t :: s) (fun b hb => hclosed t ht b hb) hnd1 hbd1 hlen1
          exact ⟨r, by simp only [isErrorInterfaceOrBase, if_neg hmem, if_neg hname,
            if_pos hcls]; exact hr⟩
        · exact ⟨(false, t :: s),
            by simp [isErrorInterfaceOrBase, hmem, hname, hcls]⟩

/-
Concrete checkers used by the witnesses.  cM is a small catalogue graph:
handle 0 is the built-in Error interface, 1 a subclass MyError, 2 a boolean
literal type, 3 the union Error-or-boolean, 4 the union MyError-or-null, 5 the
null type, 6/7/8 the any/unknown/never types, 9 an object type that is a type
reference (not ClassOrInterface) whose symbol is not Error but whose declared
base list reaches Error, 10 a type parameter constrained to Error, 11 an
unconstrained type parameter, 12 a Promise instantiation whose awaited type is
the union 3.  cW7 is a deliberately cyclic two-node graph, and cW8b a checker
exposing neither awaited-type operation.
-/

def cMNode : Nat → TypeNode
  | 0 => ⟨TyKind.obj true, some "Error"⟩
  | 1 => ⟨TyKind.obj true, some "MyError"⟩
  | 2 => ⟨TyKind.prim, none⟩
  | 3 => ⟨TyKind.union [0, 2], none⟩
  | 4 => ⟨TyKind.union [1, 5], none⟩
  | 5 => ⟨TyKind.prim, none⟩
  | 6 => ⟨TyKind.anyT, none⟩
  | 7 => ⟨TyKind.unknownT, none⟩
  | 8 => ⟨TyKind.neverT, none⟩
  | 9 => ⟨TyKind.obj false, some "MyRef"⟩
  | 10 => ⟨TyKind.typeParam, none⟩
  | 11 => ⟨TyKind.typeParam, none⟩
  | 12 => ⟨TyKind.obj true, some "Promise"⟩
  | _ => ⟨TyKind.prim, none⟩

def cMBases : Nat → List Nat
  | 1 => [0]
  | 9 => [0]
  | _ => []

def cM : Checker :=
  ⟨13, cMNode, fun t => t, fun t => if t = 10 then some 0 else none, cMBases,
    true, fun t => if t = 12 then some 3 else none, false, fun _ => none⟩

def cW7 : Checker :=
  ⟨2, fun t => if t = 0 then ⟨TyKind.obj true, some "A"⟩ else ⟨TyKind.obj true, some "B"⟩,
    fun t => t, fun _ => none, fun t => if t = 0 then [1] else [0],
    false, fun _ => none, false, fun _ => none⟩

def cW8b : Checker :=
  ⟨1, fun _ => ⟨TyKind.prim, none⟩, fun t => t, fun _ => none, fun _ => [],
    false, fun _ => none, false, fun _ => none⟩

/-- Claim C1: for every expression statement whose expression is classified as
a standalone (possibly awaited) call, a diagnostic is reported if and only if
the error matcher accepts the resolved result type (the report decision equals
the matcher's decision on resolveResultType); and call results that are
assigned, returned, or thrown, not being bare expression statements with a
standalone call, are never reported, regardless of result type. -/
theorem claim_C1 (checker : Checker) (fuel : Nat) (s : Stmt) :
    (∀ e sc, s = Stmt.expressionStatement e → getStandaloneCall e = some sc →
      lintStmt checker fuel s =
        isErrorOrSubclass checker fuel (resolveResultType checker sc.call sc.isAwait)) ∧
    (∀ e, s = Stmt.expressionStatement e → getStandaloneCall e = none →
      lintStmt checker fuel s = some false) ∧
    (∀ name init, lintStmt checker fuel (Stmt.variableDeclaration name init) = some false) ∧
    (∀ a, lintStmt checker fuel (Stmt.returnStatement a) = some false) ∧
    (∀ a, lintStmt checker fuel (Stmt.throwStatement a) = some false) ∧
    (∀ l r, lintStmt checker fuel
      (Stmt.expressionStatement (Expr.assignmentExpression l r)) = some false) := by
  refine ⟨?_, ?_, fun _ _ => rfl, fun _ => rfl, fun _ => rfl, fun _ _ => rfl⟩
  · intro e sc hs hcls
    subst hs
    simp [lintStmt, checkExpressionStatement, hcls]
  · intro e hs hcls
    subst hs
    simp [lintStmt, checkExpressionStatement, hcls]

theorem claim_C1_witness :
    getStandaloneCall (Expr.callExpression 3) = some ⟨Expr.callExpression 3, false⟩ ∧
    lintStmt cM 5 (Stmt.expressionStatement (Expr.callExpression 3)) =
      isErrorOrSubclass cM 5 (resolveResultType cM (Expr.callExpression 3) false) := by
  refine ⟨rfl, ?_⟩
  exact (claim_C1 cM 5 (Stmt.expressionStatement (Expr.callExpression 3))).1
    (Expr.callExpression 3) ⟨Expr.callExpression 3, false⟩ rfl rfl

/-- Claim C2: the classifier recognizes exactly two input shapes, a direct
call expression (returned unawaited) and an await expression whose argument is
directly a call expression (returned awaited); every other expression shape,
including member accesses, conditional and sequence expressions, and an await
whose argument is not directly a call, yields none. -/
theorem claim_C2 (expr : Expr) (sc : StandaloneCall) :
    (getStandaloneCall expr = some sc ↔
      ((∃ ty, expr = Expr.callExpression ty ∧ sc = ⟨expr, false⟩) ∨
       (∃ ty, expr = Expr.awaitExpression (Expr.callExpression ty) ∧
         sc = ⟨Expr.callExpression ty, true⟩))) ∧
    (∀ o p, getStandaloneCall (Expr.memberExpression o p) = none) ∧
    (∀ a b c, getStandaloneCall (Expr.conditionalExpression a b c) = none) ∧
    (∀ a b, getStandaloneCall (Expr.sequenceExpression a b) = none) ∧
    (∀ a, getStandaloneCall (Expr.awaitExpression (Expr.awaitExpression a)) = none) ∧
    (∀ n, getStandaloneCall (Expr.awaitExpression (Expr.identifier n)) = none) := by
  refine ⟨?_, fun _ _ => rfl, fun _ _ _ => rfl, fun _ _ => rfl, fun _ => rfl, fun _ => rfl⟩
  cases expr with
  | callExpression ty =>
    simp only [getStandaloneCall]
    constructor
    · intro h
      cases h
      exact Or.inl ⟨ty, rfl, rfl⟩
    · rintro (⟨ty2, he, hsc⟩ | ⟨ty2, he, hsc⟩)
      · cases he; cases hsc; rfl
      · cases he
  | awaitExpression arg =>
    cases arg with
    | callExpression ty =>
      simp only [getStandaloneCall]
      constructor
      · intro h
        cases h
        exact Or.inr ⟨ty, rfl, rfl⟩
      · rintro (⟨ty2, he, hsc⟩ | ⟨ty2, he, hsc⟩)
        · cases he
        · cases he; cases hsc; rfl
    | awaitExpression a =>
      constructor
      · intro h; cases h
      · rintro (⟨ty2, he, _⟩ | ⟨ty2, he, _⟩) <;> cases he
    | memberExpression o p =>
      constructor
      · intro h; cases h
      · rintro (⟨ty2, he, _⟩ | ⟨ty2, he, _⟩) <;> cases he
    | assignmentExpression l r =>
      constructor
      · intro h; cases h
      · rintro (⟨ty2, he, _⟩ | ⟨ty2, he, _⟩) <;> cases he
    | conditionalExpression a b c =>
      constructor
      · intro h; cases h
      · rintro (⟨ty2, he, _⟩ | ⟨ty2, he, _⟩) <;> cases he
    | sequenceExpression a b =>
      constructor
      · intro h; cases h
      · rintro (⟨ty2, he, _⟩ | ⟨ty2, he, _⟩) <;> cases he
    | identifier n =>
      constructor
      · intro h; cases h
      · rintro (⟨ty2, he, _⟩ | ⟨ty2, he, _⟩) <;> cases he
    | literal =>
      constructor
      · intro h; cases h
      · rintro (⟨ty2, he, _⟩ | ⟨ty2, he, _⟩) <;> cases he
  | memberExpression o p =>
    constructor
    · intro h; cases h
    · rintro (⟨ty2, he, _⟩ | ⟨ty2, he, _⟩) <;> cases he
  | assignmentExpression l r =>
    constructor
    · intro h; cases h
    · rintro (⟨ty2, he, _⟩ | ⟨ty2, he, _⟩) <;> cases he
  | conditionalExpression a b c =>
    constructor
    · intro h; cases h
    · rintro (⟨ty2, he, _⟩ | ⟨ty2, he, _⟩) <;> cases he
  | sequenceExpression a b =>
    constructor
    · intro h; cases h
    · rintro (⟨ty2, he, _⟩ | ⟨ty2, he, _⟩) <;> cases he
  | identifier n =>
    constructor
    · intro h; cases h
    · rintro (⟨ty2, he, _⟩ | ⟨ty2, he, _⟩) <;> cases he
  | literal =>
    constructor
    · intro h; cases h
    · rintro (⟨ty2, he, _⟩ | ⟨ty2, he, _⟩) <;> cases he

/-- Claim C3: a bare statement call whose declared return type is exactly the
Error base type, or a union containing the Error base type among other
members, is always reported when the check completes: flattening expands the
union into leaves and the match is a disjunction over the flattened leaves. -/
theorem claim_C3 (checker : Checker) (fuel ty : Nat) (parts : List Nat) (r : Bool)
    (hflat : flattenTypes checker fuel ty = some parts)
    (hlint : lintStmt checker fuel (Stmt.expressionStatement (Expr.callExpression ty)) =
      some r) :
    ((isLeafKind (checker.node ty).kind = true ∧ isTopBottom (checker.node ty).kind = false ∧
       (checker.node (checker.apparent ty)).symbolName = some "Error") → r = true) ∧
    (∀ ms p, (checker.node ty).kind = TyKind.union ms → p ∈ ms →
      isLeafKind (checker.node p).kind = true → isTopBottom (checker.node p).kind = false →
      (checker.node (checker.apparent p)).symbolName = some "Error" → r = true) := by
  constructor
  · rintro ⟨hleaf, hfil, hname⟩
    cases fuel with
    | zero => simp [flattenTypes] at hflat
    | succ f =>
      have hparts : parts = [ty] := by
        rw [flattenTypes_leafKind checker f ty hleaf] at hflat
        cases hflat
        rfl
      subst hparts
      exact lintStmt_leaf_chain_true checker (f + 1) ty [ty] ty [] r hflat
        (List.mem_cons_self _ _) hfil hname hlint
  · intro ms p hu hp hleaf hfil hname
    cases fuel with
    | zero => simp [flattenTypes] at hflat
    | succ f =>
      have hflat' : flattenList (fun t => flattenTypes checker f t) ms = some parts := by
        rw [show flattenTypes checker (f + 1) ty =
          flattenList (fun t => flattenTypes checker f t) ms by simp [flattenTypes, hu]] at hflat
        exact hflat
      obtain ⟨lp, hlp, hsub⟩ := flattenList_mem_success _ ms parts hflat' p hp
      cases f with
      | zero => simp [flattenTypes] at hlp
      | succ f2 =>
        rw [flattenTypes_leafKind checker f2 p hleaf] at hlp
        cases hlp
        exact lintStmt_leaf_chain_true checker (f2 + 1 + 1) ty parts p [] r hflat
          (hsub p (List.mem_cons_self _ _)) hfil hname hlint

theorem claim_C3_witness :
    flattenTypes cM 5 3 = some [0, 2] ∧
    lintStmt cM 5 (Stmt.expressionStatement (Expr.callExpression 3)) = some true ∧
    (true = true) := by
  refine ⟨by decide, by decide, ?_⟩
  exact (claim_C3 cM 5 3 [0, 2] true (by decide) (by decide)).2 [0, 2] 0 (by decide)
    (by decide) (by decide) (by decide) (by decide)

/-- Claim C4: a statement call whose result type has a flattened leaf that is
a strict subtype of the Error base type through the declared base-type chain
(not nominally named Error itself) is reported whenever the check completes:
the matcher searches the apparent type's declared base types depth-first for a
type whose symbol is named Error. -/
theorem claim_C4 (checker : Checker) (fuel ty : Nat) (parts : List Nat) (p : Nat)
    (path : List Nat) (r : Bool)
    (hflat : flattenTypes checker fuel ty = some parts)
    (hp : p ∈ parts)
    (hfil : isTopBottom (checker.node p).kind = false)
    (_hname : (checker.node (checker.apparent p)).symbolName ≠ some "Error")
    (_hpath : path ≠ [])
    (hchain : IsBaseChain checker (checker.apparent p) path)
    (hlint : lintStmt checker fuel (Stmt.expressionStatement (Expr.callExpression ty)) =
      some r) :
    r = true :=
  lintStmt_leaf_chain_true checker fuel ty parts p path r hflat hp hfil hchain hlint

theorem claim_C4_witness :
    flattenTypes cM 5 4 = some [1, 5] ∧ (1 : Nat) ∈ [1, 5] ∧
    IsBaseChain cM (cM.apparent 1) [0] ∧
    (cM.node (cM.apparent 1)).symbolName ≠ some "Error" ∧
    lintStmt cM 5 (Stmt.expressionStatement (Expr.callExpression 4)) = some true ∧
    (true = true) := by
  refine ⟨by decide, by decide, by decide, by decide, by decide, ?_⟩
  exact claim_C4 cM 5 4 [1, 5] 1 [0] true (by decide) (by decide) (by decide) (by decide)
    (by decide) (by decide) (by decide)

/-- Claim C5: a flattened leaf of kind any, unknown, or never is discarded and
contributes no match, and a bare statement call whose result type is itself
any, unknown, or never is never reported. -/
theorem claim_C5 (checker : Checker) (fuel : Nat) :
    (∀ ty, ((checker.node ty).kind = TyKind.anyT ∨ (checker.node ty).kind = TyKind.unknownT ∨
        (checker.node ty).kind = TyKind.neverT) →
      lintStmt checker (fuel + 1) (Stmt.expressionStatement (Expr.callExpression ty)) =
        some false) ∧
    (∀ t rest, isTopBottom (checker.node t).kind = true →
      matchParts checker fuel (t :: rest) = matchParts checker fuel rest) := by
  constructor
  · intro ty htb
    have hleaf : isLeafKind (checker.node ty).kind = true := by
      rcases htb with h | h | h <;> rw [h] <;> rfl
    have htop : isTopBottom (checker.node ty).kind = true := by
      rcases htb with h | h | h <;> rw [h] <;> rfl
    rw [lintStmt_bare_call]
    simp [isErrorOrSubclass, flattenTypes_leafKind checker fuel ty hleaf, matchParts, htop]
  · intro t rest htop
    simp [matchParts, htop]

theorem claim_C5_witness :
    (cM.node 6).kind = TyKind.anyT ∧
    lintStmt cM 5 (Stmt.expressionStatement (Expr.callExpression 6)) = some false := by
  refine ⟨by decide, ?_⟩
  exact (claim_C5 cM 4).1 6 (Or.inl (by decide))

/-- Claim C6 as stated is false on the code: flattenTypes keeps an
unconstrained type parameter as a leaf (it returns the singleton of the type
parameter), it does not make it contribute no leaves.  Handle 11 of cM is an
unconstrained type parameter and flattening it yields the singleton list
containing it, not the empty list. -/
theorem claim_C6_counterexample :
    (cM.node 11).kind = TyKind.typeParam ∧ cM.baseConstraint 11 = none ∧
    flattenTypes cM 1 11 = some [11] ∧ flattenTypes cM 1 11 ≠ some [] := by decide

/-- Claim C6, amended: when flattening, a type-parameter leaf with a declared
upper-bound constraint is replaced by recursively flattening that constraint;
a type parameter without a constraint is kept as a single leaf (itself). -/
theorem claim_C6 (checker : Checker) (fuel t : Nat)
    (hk : (checker.node t).kind = TyKind.typeParam) :
    (∀ constraint, checker.baseConstraint t = some constraint →
      flattenTypes checker (fuel + 1) t = flattenTypes checker fuel constraint) ∧
    (checker.baseConstraint t = none → flattenTypes checker (fuel + 1) t = some [t]) := by
  constructor
  · intro c hc
    simp [flattenTypes, hk, hc]
  · intro hc
    simp [flattenTypes, hk, hc]

theorem claim_C6_witness :
    (cM.node 10).kind = TyKind.typeParam ∧ cM.baseConstraint 10 = some 0 ∧
    flattenTypes cM 2 10 = flattenTypes cM 1 0 ∧
    cM.baseConstraint 11 = none ∧ flattenTypes cM 2 11 = some [11] := by
  refine ⟨by decide, by decide, ?_, by decide, ?_⟩
  · exact (claim_C6 cM 1 10 (by decide)).1 0 (by decide)
  · exact (claim_C6 cM 1 11 (by decide)).2 (by decide)

/-- Claim C7: on a finite base-closed type graph the matcher cannot
infinite-loop, even in the presence of cycles: fuel one larger than the graph
size always suffices for the walk to complete, the visited set it produces
never records a handle twice (each type handle is inspected at most once per
top-level call), and a revisited handle is answered as a non-match immediately,
with the seen set unchanged (no re-descent). -/
theorem claim_C7 (checker : Checker) (hclosed : BasesClosed checker) (t : Nat)
    (ht : t < checker.size) :
    (∃ r, isErrorInterfaceOrBase checker (checker.size + 1) t [] = some r ∧ r.2.Nodup) ∧
    (∀ fuel u seen, u ∈ seen →
      isErrorInterfaceOrBase checker (fuel + 1) u seen = some (false, seen)) := by
  constructor
  · obtain ⟨r, hr⟩ := isErrorInterfaceOrBase_total checker hclosed (checker.size + 1) t []
      ht List.nodup_nil (fun x hx => absurd hx (List.not_mem_nil x)) (by simp)
    exact ⟨r, hr, (isErrorInterfaceOrBase_pres checker hclosed (checker.size + 1) t [] r ht
      List.nodup_nil (fun x hx => absurd hx (List.not_mem_nil x)) hr).1⟩
  · intro fuel u seen hmem
    simp [isErrorInterfaceOrBase, hmem]

theorem claim_C7_witness :
    BasesClosed cW7 ∧ 0 < cW7.size ∧
    (∃ r, isErrorInterfaceOrBase cW7 (cW7.size + 1) 0 [] = some r ∧ r.2.Nodup) := by
  exact ⟨by decide, by decide, (claim_C7 cW7 (by decide) 0 (by decide)).1⟩

/-- Claim C8: the one-level asynchronous unwrap is a total two-tier fallback:
when the direct awaited-type operation is exposed its answer is used with the
original type as default; otherwise, when the promised-type operation is
exposed, its answer is used with the original type as default; when neither is
exposed the type is returned unchanged.  An awaited bare statement call is
then reported exactly according to the matcher's answer on the unwrapped
(settled) type. -/
theorem claim_C8 (checker : Checker) (ty fuel : Nat) :
    (checker.hasGetAwaitedType = true →
      getAwaitedType checker ty = (checker.getAwaitedTypeOp ty).getD ty) ∧
    (checker.hasGetAwaitedType = false → checker.hasGetPromisedTypeOfPromise = true →
      getAwaitedType checker ty = (checker.getPromisedTypeOfPromiseOp ty).getD ty) ∧
    (checker.hasGetAwaitedType = false → checker.hasGetPromisedTypeOfPromise = false →
      getAwaitedType checker ty = ty) ∧
    lintStmt checker fuel
        (Stmt.expressionStatement (Expr.awaitExpression (Expr.callExpression ty))) =
      isErrorOrSubclass checker fuel (getAwaitedType checker ty) := by
  refine ⟨?_, ?_, ?_, rfl⟩
  · intro h
    simp only [getAwaitedType, h, if_true]
    cases checker.getAwaitedTypeOp ty <;> simp
  · intro h1 h2
    simp only [getAwaitedType, h1, h2, if_false, if_true, Bool.false_eq_true]
    cases checker.getPromisedTypeOfPromiseOp ty <;> simp
  · intro h1 h2
    simp [getAwaitedType, h1, h2]

theorem claim_C8_witness :
    cM.hasGetAwaitedType = true ∧
    getAwaitedType cM 12 = (cM.getAwaitedTypeOp 12).getD 12 ∧
    cW8b.hasGetAwaitedType = false ∧ cW8b.hasGetPromisedTypeOfPromise = false ∧
    getAwaitedType cW8b 0 = 0 ∧
    lintStmt cM 5 (Stmt.expressionStatement (Expr.awaitExpression (Expr.callExpression 12))) =
      isErrorOrSubclass cM 5 (getAwaitedType cM 12) := by
  refine ⟨rfl, (claim_C8 cM 12 5).1 rfl, rfl, rfl, ?_, (claim_C8 cM 12 5).2.2.2⟩
  exact (claim_C8 cW8b 0 1).2.2.1 rfl rfl

/-- Claim C9: the analyzer is deterministic and stateless across statements
and invocations: a traversal is the pointwise map of a pure per-statement
decision, so the diagnostics of a concatenation are the concatenation of the
diagnostics (no cross-statement state) and the reported set is a function of
the statements alone, making repeated runs over an unchanged file identical. -/
theorem claim_C9 (checker : Checker) (fuel : Nat) (xs ys stmts : List (Nat × Stmt)) :
    lintFile checker fuel (xs ++ ys) = lintFile checker fuel xs ++ lintFile checker fuel ys ∧
    lintFile checker fuel stmts =
      (stmts.filter fun p => lintStmt checker fuel p.2 == some true).map Prod.fst := by
  constructor
  · induction xs with
    | nil => simp [lintFile]
    | cons x xs ih =>
      obtain ⟨id, s⟩ := x
      simp only [List.cons_append, lintFile, List.append_eq, ih, List.append_assoc]
  · induction stmts with
    | nil => simp [lintFile]
    | cons x rest ih =>
      obtain ⟨id, s⟩ := x
      by_cases h : lintStmt checker fuel s = some true
      · simp [lintFile, h, ih]
      · simp [lintFile, h, ih]

/-- Claim C10: the base-type chain is traversed only for object types flagged
as class or interface; for any type that is not such an object type the walk
answers purely by the type's own symbol name being Error, adding only the type
itself to the seen set and never descending into base types. -/
theorem claim_C10 (checker : Checker) (fuel type : Nat) (seen : List Nat)
    (hcls : isClassOrInterface (checker.node type).kind = false)
    (hmem : type ∉ seen) :
    ((checker.node type).symbolName = some "Error" →
      isErrorInterfaceOrBase checker (fuel + 1) type seen = some (true, type :: seen)) ∧
    ((checker.node type).symbolName ≠ some "Error" →
      isErrorInterfaceOrBase checker (fuel + 1) type seen = some (false, type :: seen)) := by
  constructor
  · intro hname
    simp [isErrorInterfaceOrBase, hmem, hname]
  · intro hname
    simp [isErrorInterfaceOrBase, hmem, hname, hcls]

theorem claim_C10_witness :
    isClassOrInterface (cM.node 9).kind = false ∧ (9 : Nat) ∉ ([] : List Nat) ∧
    cM.baseTypes 9 = [0] ∧ (cM.node 0).symbolName = some "Error" ∧
    isErrorInterfaceOrBase cM 5 9 [] = some (false, [9]) := by
  refine ⟨by decide, by decide, by decide, by decide, ?_⟩
  exact (claim_C10 cM 4 9 [] (by decide) (by decide)).2 (by decide)

end CheckedError
